import Mathlib

/-!
Verification of the core of the Arc Raiders recipe calculator
(`flask_app.py`): the base-resource classifier, the upgrade-tier
resolver, the one-level requirement expander, the display-info
resolver, and the single-item expansion endpoint.

Python strings are sequences of code points; we embed the string
operations the code uses (`str.endswith`, slicing `s[:-n]`,
concatenation, lexicographic comparison) over `String.data`
(a `List Char`), which matches Python semantics exactly and keeps
everything kernel-computable.
-/

namespace ArcRaiders

/-- Python `s.endswith(t)`: `t` is a suffix of `s` (code-point-wise). -/
def endsWithS (s t : String) : Bool := t.data.isSuffixOf s.data

/-- Python `s[:-n]` (for `n > 0`): drop the last `n` code points. -/
def dropRightS (s : String) (n : Nat) : String := ⟨s.data.take (s.data.length - n)⟩

/-- Python `<` on strings: lexicographic comparison of code points. -/
def lexLtChars : List Char → List Char → Bool
  | [], [] => false
  | [], _ :: _ => true
  | _ :: _, [] => false
  | a :: as, b :: bs =>
    if a.toNat < b.toNat then true
    else if b.toNat < a.toNat then false
    else lexLtChars as bs

def pyStrLt (a b : String) : Bool := lexLtChars a.data b.data

/-- A stored item name: either a plain JSON string or a mapping from
language code to string (`{"en": ..., "fr": ...}`). -/
inductive NameData where
  | str (s : String)
  | dict (entries : List (String × String))
deriving DecidableEq, Repr

/-- One catalog record, as loaded from an item JSON file.  Absent JSON
fields are `none`; `recipe`/`upgradeCost` map ingredient identifier to
quantity (Python `int`, embedded as `Int`), in dict insertion order. -/
structure Item where
  name : Option NameData
  type : Option String
  rarity : Option String
  imageFilename : Option String
  recipe : Option (List (String × Int))
  upgradeCost : Option (List (String × Int))
deriving DecidableEq, Repr

/-- The item with no fields set (`self.items.get(item_id, {})`). -/
def emptyItem : Item := ⟨none, none, none, none, none, none⟩

/-- `calculator.items`: mapping from item identifier to record, embedded
as an association list with unique keys, looked up with `List.lookup`. -/
abbrev Catalog := List (String × Item)

/-- A requirements mapping (`defaultdict(int)` in the code): association
list in insertion order; accumulating under a fresh key appends it. -/
abbrev Req := List (String × Int)

/-- Python truthiness of an optional dict field:
`'recipe' in item and item['recipe']` — present and non-empty. -/
def truthyMap : Option (List (String × Int)) → Bool
  | none => false
  | some m => !m.isEmpty

/-- `RecipeCalculator.is_base_resource`. -/
def is_base_resource (items : Catalog) (item_id : String) : Bool :=
  match List.lookup item_id items with
  | none => true
  | some item => !(truthyMap item.recipe || truthyMap item.upgradeCost)

/-- `RecipeCalculator.get_previous_upgrade_level`: the `upgrade_map`
dict is scanned in insertion order `_iv, _iii, _ii`; on an `endswith`
match the suffix is sliced off and the previous tier's suffix appended. -/
def get_previous_upgrade_level (item_id : String) : Option String :=
  if endsWithS item_id "_iv" then some (dropRightS item_id 3 ++ "_iii")
  else if endsWithS item_id "_iii" then some (dropRightS item_id 4 ++ "_ii")
  else if endsWithS item_id "_ii" then some (dropRightS item_id 3 ++ "_i")
  else none

/-- `requirements[ingredient_id] += v` on a `defaultdict(int)`: add to
the existing entry, or append the key with value `0 + v`. -/
def addReq (reqs : Req) (k : String) (v : Int) : Req :=
  match reqs with
  | [] => [(k, v)]
  | (k', v') :: rest => if k' = k then (k', v' + v) :: rest else (k', v') :: addReq rest k v

/-- The inner loop `for ingredient_id, ingredient_qty in mapping.items():
requirements[ingredient_id] += ingredient_qty * quantity`. -/
def addAll (reqs : Req) (ing : List (String × Int)) (quantity : Int) : Req :=
  ing.foldl (fun r p => addReq r p.1 (p.2 * quantity)) reqs

/-- The body of the `for item_id, quantity in selected_items.items()`
loop of `get_direct_requirements`, processing one selected pair. -/
def stepSel (items : Catalog) (reqs : Req) (sel : String × Int) : Req :=
  match List.lookup sel.1 items with
  | none => reqs
  | some item =>
    if truthyMap item.upgradeCost then
      let reqs1 := addAll reqs (item.upgradeCost.getD []) sel.2
      match get_previous_upgrade_level sel.1 with
      | some previous_level => addReq reqs1 previous_level sel.2
      | none => reqs1
    else if truthyMap item.recipe then
      addAll reqs (item.recipe.getD []) sel.2
    else reqs

/-- `RecipeCalculator.get_direct_requirements`. -/
def get_direct_requirements (items : Catalog) (selected_items : List (String × Int)) : Req :=
  selected_items.foldl (stepSel items) []

/-- The dict returned by `get_weapon_upgrade_info`; the three optional
keys are only present when `is_weapon_upgrade` is true. -/
structure WeaponUpgradeInfo where
  is_weapon_upgrade : Bool
  base_name : Option String
  upgrade_level : Option String
  previous_level : Option String
deriving DecidableEq, Repr

/-- `RecipeCalculator.get_weapon_upgrade_info`: scans `upgrade_levels`
in insertion order `_i, _ii, _iii, _iv`; on an `endswith` match returns
base name (suffix sliced off), the roman numeral, and the
`previous_level` field, which the code sets to `roman` (the item's own
numeral) unless the suffix is `_i`, in which case `None`. -/
def get_weapon_upgrade_info (item_id : String) (is_weapon : Bool) : WeaponUpgradeInfo :=
  if !is_weapon then ⟨false, none, none, none⟩
  else if endsWithS item_id "_i" then
    ⟨true, some (dropRightS item_id 2), some "I", none⟩
  else if endsWithS item_id "_ii" then
    ⟨true, some (dropRightS item_id 3), some "II", some "II"⟩
  else if endsWithS item_id "_iii" then
    ⟨true, some (dropRightS item_id 4), some "III", some "III"⟩
  else if endsWithS item_id "_iv" then
    ⟨true, some (dropRightS item_id 3), some "IV", some "IV"⟩
  else ⟨false, none, none, none⟩

/-- The display record built by `get_item_info`; `weapon_upgrade`,
`upgrade_level` and `required_level` are only set on tiers above I. -/
structure ItemInfo where
  id : String
  name : String
  image : String
  rarity : String
  type : String
  weapon_upgrade : Bool
  upgrade_level : Option String
  required_level : Option String
deriving DecidableEq, Repr

/-- `RecipeCalculator.get_item_info`. -/
def get_item_info (items : Catalog) (item_id : String) : ItemInfo :=
  let item := (List.lookup item_id items).getD emptyItem
  let weapon_info := get_weapon_upgrade_info item_id (item.type.getD "Unknown" ≠ "Modification")
  let imageFilename := item.imageFilename.getD ""
  let image_path :=
    if imageFilename.length ≠ 0 then "static/images/" ++ imageFilename
    else if weapon_info.is_weapon_upgrade then
      "static/images/" ++ weapon_info.base_name.getD "" ++ ".png"
    else "static/images/" ++ item_id ++ ".png"
  let name :=
    match item.name with
    | none => item_id
    | some (NameData.str s) => s
    | some (NameData.dict m) => (List.lookup "en" m).getD item_id
  let base : ItemInfo :=
    ⟨item_id, name, image_path, item.rarity.getD "Common", item.type.getD "Unknown",
      false, none, none⟩
  if weapon_info.is_weapon_upgrade && (weapon_info.upgrade_level.getD "" ≠ "I") then
    let level_map : List (String × String) := [("II", "I"), ("III", "II"), ("IV", "III")]
    { base with
      weapon_upgrade := true,
      upgrade_level := weapon_info.upgrade_level,
      required_level := some ((List.lookup (weapon_info.upgrade_level.getD "") level_map).getD "I") }
  else base

/-- One entry of the JSON array returned by `/api/expand`. -/
structure ExpandEntry where
  info : ItemInfo
  quantity : Int
  can_expand : Bool
deriving DecidableEq, Repr

/-- The HTTP-level outcome of the `/api/expand` handler: a 400 client
error with a message, or a 200 array of display entries. -/
inductive ApiResponse where
  | clientError (code : Nat) (msg : String)
  | ok (entries : List ExpandEntry)
deriving DecidableEq, Repr

/-- Stable insertion (Python `sorted` is a stable ascending sort keyed
by the resolved display name). -/
def insertEntry (e : ExpandEntry) : List ExpandEntry → List ExpandEntry
  | [] => [e]
  | x :: xs =>
    if pyStrLt x.info.name e.info.name then x :: insertEntry e xs else e :: x :: xs

def sortEntries (l : List ExpandEntry) : List ExpandEntry := l.foldr insertEntry []

/-- The `/api/expand` handler `expand_item`: `data.get('item_id')` is
`None` when absent, and `if not item_id` rejects `None` and the empty
string with a 400 response; otherwise it expands the single-item
mapping and decorates each requirement with display info. -/
def expand_item (items : Catalog) (item_id? : Option String) (quantity? : Option Int) :
    ApiResponse :=
  let item_id := item_id?.getD ""
  let quantity := quantity?.getD 1
  if item_id = "" then ApiResponse.clientError 400 "item_id required"
  else
    let requirements := get_direct_requirements items [(item_id, quantity)]
    ApiResponse.ok (sortEntries (requirements.map fun p =>
      ⟨get_item_info items p.1, p.2, !is_base_resource items p.1⟩))

/-- Keys of a requirements mapping, in insertion order. -/
def keysOf (r : Req) : List String := r.map Prod.fst

/-- Value of a requirements mapping at a key, defaulting to 0
(matching `defaultdict(int)` reads). -/
def lookupD (r : Req) (g : String) : Int := (List.lookup g r).getD 0

/-! ### Concrete catalogs used by the spec's worked examples -/

/-- A tier-III weapon with a populated `upgradeCost` and also a
populated `recipe`, to exercise the precedence rule. -/
def weaponIIIItem : Item :=
  { emptyItem with
    upgradeCost := some [("mat_a", 3), ("mat_b", 1)],
    recipe := some [("junk", 5)] }

def weaponCat : Catalog := [("weapon_iii", weaponIIIItem), ("mat_a", emptyItem)]

/-- The spec's wood/plank/table catalog. -/
def woodCat : Catalog :=
  [("wood", emptyItem),
   ("plank", { emptyItem with recipe := some [("wood", 2)] }),
   ("table", { emptyItem with recipe := some [("plank", 4)] })]

/-- Two distinct items both requiring 2 wood. -/
def abCat : Catalog :=
  [("a", { emptyItem with recipe := some [("wood", 2)] }),
   ("b", { emptyItem with recipe := some [("wood", 2)] })]

/-- An item whose `imageFilename` field is present but empty. -/
def rifleIIItem : Item := { emptyItem with imageFilename := some "" }

/-- An item whose name is a language dict. -/
def namedDictItem : Item :=
  { emptyItem with name := some (NameData.dict [("en", "Rifle"), ("fr", "Fusil")]) }

/-- An item whose name is a plain string. -/
def namedStrItem : Item := { emptyItem with name := some (NameData.str "Rifle") }

/-! ### String-suffix lemmas (Python `endswith` / slicing) -/

theorem endsWithS_append_self (b t : String) : endsWithS (b ++ t) t = true := by
  simp [endsWithS, String.data_append, List.isSuffixOf_iff_suffix]

theorem endsWithS_append_false (b t u : String)
    (h1 : ¬ u.data <:+ t.data) (h2 : ¬ t.data <:+ u.data) :
    endsWithS (b ++ t) u = false := by
  rw [endsWithS, Bool.eq_false_iff]
  intro h
  rw [List.isSuffixOf_iff_suffix, String.data_append] at h
  rcases List.suffix_or_suffix_of_suffix h (List.suffix_append b.data t.data) with h3 | h3
  · exact h1 h3
  · exact h2 h3

theorem dropRightS_append_ii (b : String) : dropRightS (b ++ "_ii") 3 = b := by
  simp [dropRightS, String.data_append]

theorem dropRightS_append_iii (b : String) : dropRightS (b ++ "_iii") 4 = b := by
  simp [dropRightS, String.data_append]

theorem dropRightS_append_iv (b : String) : dropRightS (b ++ "_iv") 3 = b := by
  simp [dropRightS, String.data_append]

theorem gpul_append_ii (b : String) :
    get_previous_upgrade_level (b ++ "_ii") = some (b ++ "_i") := by
  rw [get_previous_upgrade_level,
    endsWithS_append_false b "_ii" "_iv" (by decide) (by decide),
    endsWithS_append_false b "_ii" "_iii" (by decide) (by decide),
    endsWithS_append_self b "_ii"]
  simp [dropRightS_append_ii]

theorem gpul_append_iii (b : String) :
    get_previous_upgrade_level (b ++ "_iii") = some (b ++ "_ii") := by
  rw [get_previous_upgrade_level,
    endsWithS_append_false b "_iii" "_iv" (by decide) (by decide),
    endsWithS_append_self b "_iii"]
  simp [dropRightS_append_iii]

theorem gpul_append_iv (b : String) :
    get_previous_upgrade_level (b ++ "_iv") = some (b ++ "_iii") := by
  rw [get_previous_upgrade_level, endsWithS_append_self b "_iv"]
  simp [dropRightS_append_iv]

/-! ### Accumulator lemmas -/

theorem lookupD_nil (g : String) : lookupD [] g = 0 := rfl

theorem lookupD_cons_self (k : String) (v : Int) (rest : Req) :
    lookupD ((k, v) :: rest) k = v := by
  simp [lookupD]

theorem lookupD_cons_ne (g k : String) (v : Int) (rest : Req) (h : g ≠ k) :
    lookupD ((k, v) :: rest) g = lookupD rest g := by
  simp [lookupD, List.lookup_cons, show (g == k) = false from beq_eq_false_iff_ne.mpr h]

theorem addReq_nil (k : String) (v : Int) : addReq [] k v = [(k, v)] := rfl

theorem addReq_cons_self (k k' : String) (v v' : Int) (rest : Req) (h : k' = k) :
    addReq ((k', v') :: rest) k v = (k', v' + v) :: rest := by
  simp [addReq, h]

theorem addReq_cons_ne (k k' : String) (v v' : Int) (rest : Req) (h : k' ≠ k) :
    addReq ((k', v') :: rest) k v = (k', v') :: addReq rest k v := by
  simp [addReq, h]

theorem lookupD_addReq (r : Req) (k : String) (v : Int) (g : String) :
    lookupD (addReq r k v) g = lookupD r g + (if k = g then v else 0) := by
  induction r with
  | nil =>
    rw [addReq_nil]
    by_cases h : k = g
    · subst h
      rw [lookupD_cons_self, lookupD_nil, if_pos rfl]
      omega
    · rw [lookupD_cons_ne g k v [] (fun hc => h hc.symm), if_neg h]
      omega
  | cons p rest ih =>
    obtain ⟨k', v'⟩ := p
    by_cases h1 : k' = k
    · subst h1
      rw [addReq_cons_self k' k' v v' rest rfl]
      by_cases h2 : k' = g
      · subst h2
        rw [lookupD_cons_self, lookupD_cons_self, if_pos rfl]
      · rw [lookupD_cons_ne g k' (v' + v) rest (fun hc => h2 hc.symm),
          lookupD_cons_ne g k' v' rest (fun hc => h2 hc.symm), if_neg h2]
        omega
    · rw [addReq_cons_ne k k' v v' rest h1]
      by_cases h2 : k' = g
      · subst h2
        rw [lookupD_cons_self, lookupD_cons_self, if_neg (fun hc => h1 hc.symm)]
        omega
      · rw [lookupD_cons_ne g k' v' (addReq rest k v) (fun hc => h2 hc.symm),
          lookupD_cons_ne g k' v' rest (fun hc => h2 hc.symm), ih]

theorem mem_keysOf_addReq (r : Req) (k : String) (v : Int) (g : String) :
    g ∈ keysOf (addReq r k v) ↔ g ∈ keysOf r ∨ g = k := by
  induction r with
  | nil => simp [addReq_nil, keysOf]
  | cons p rest ih =>
    obtain ⟨k', v'⟩ := p
    by_cases h1 : k' = k
    · subst h1
      rw [addReq_cons_self k' k' v v' rest rfl]
      simp only [keysOf, List.map_cons, List.mem_cons] at ih ⊢
      constructor
      · rintro (h | h)
        · exact Or.inl (Or.inl h)
        · exact Or.inl (Or.inr h)
      · rintro ((h | h) | h)
        · exact Or.inl h
        · exact Or.inr h
        · exact Or.inl h
    · rw [addReq_cons_ne k k' v v' rest h1]
      simp only [keysOf, List.map_cons, List.mem_cons] at ih ⊢
      rw [ih]
      tauto

theorem keysOf_addReq_nodup (r : Req) (k : String) (v : Int)
    (h : (keysOf r).Nodup) : (keysOf (addReq r k v)).Nodup := by
  induction r with
  | nil => simp [addReq, keysOf]
  | cons p rest ih =>
    obtain ⟨k', v'⟩ := p
    simp only [keysOf, List.map_cons, List.nodup_cons] at h
    by_cases h1 : k' = k
    · subst h1
      simpa [addReq, keysOf, List.nodup_cons] using h
    · have := ih h.2
      simp only [addReq, if_neg h1, keysOf, List.map_cons, List.nodup_cons]
      refine ⟨fun hc => ?_, this⟩
      rcases (mem_keysOf_addReq rest k v k').mp hc with hc' | hc'
      · exact h.1 hc'
      · exact h1 hc'

theorem lookup_of_mem_keys (r : Req) (g : String) (h : g ∈ keysOf r) :
    List.lookup g r = some (lookupD r g) := by
  have hs : (List.lookup g r).isSome := by
    rw [List.lookup_isSome_iff]
    obtain ⟨p, hp, hg⟩ := List.mem_map.mp h
    exact ⟨p, hp, by simp [hg]⟩
  obtain ⟨w, hw⟩ := Option.isSome_iff_exists.mp hs
  simp [lookupD, hw]

theorem lookup_of_not_mem_keys (r : Req) (g : String) (h : g ∉ keysOf r) :
    List.lookup g r = none := by
  rw [List.lookup_eq_none_iff]
  intro p hp
  simp only [bne_iff_ne, ne_eq]
  intro hc
  exact h (List.mem_map.mpr ⟨p, hp, hc.symm⟩)

/-- The total contribution of one ingredient-mapping pass to the entry
of ingredient `g`. -/
def contribSum (ing : List (String × Int)) (q : Int) (g : String) : Int :=
  ing.foldr (fun p acc => (if p.1 = g then p.2 * q else 0) + acc) 0

theorem lookupD_addAll (ing : List (String × Int)) (q : Int) (g : String) :
    ∀ r : Req, lookupD (addAll r ing q) g = lookupD r g + contribSum ing q g := by
  induction ing with
  | nil => intro r; simp [addAll, contribSum]
  | cons p rest ih =>
    intro r
    have hstep : addAll r (p :: rest) q = addAll (addReq r p.1 (p.2 * q)) rest q := rfl
    rw [hstep, ih, lookupD_addReq]
    simp only [contribSum, List.foldr_cons]
    omega

theorem mem_keysOf_addAll (ing : List (String × Int)) (q : Int) (g : String) :
    ∀ r : Req, g ∈ keysOf (addAll r ing q) ↔ g ∈ keysOf r ∨ g ∈ keysOf ing := by
  induction ing with
  | nil => intro r; simp [addAll, keysOf]
  | cons p rest ih =>
    intro r
    have hstep : addAll r (p :: rest) q = addAll (addReq r p.1 (p.2 * q)) rest q := rfl
    rw [hstep, ih, mem_keysOf_addReq]
    simp only [keysOf, List.map_cons, List.mem_cons]
    tauto

theorem keysOf_addAll_nodup (ing : List (String × Int)) (q : Int) :
    ∀ r : Req, (keysOf r).Nodup → (keysOf (addAll r ing q)).Nodup := by
  induction ing with
  | nil => intro r h; exact h
  | cons p rest ih =>
    intro r h
    exact ih _ (keysOf_addReq_nodup r p.1 (p.2 * q) h)

theorem contribSum_cons (p : String × Int) (rest : List (String × Int)) (q : Int)
    (g : String) :
    contribSum (p :: rest) q g = (if p.1 = g then p.2 * q else 0) + contribSum rest q g := rfl

theorem contribSum_of_not_mem (ing : List (String × Int)) (q : Int) (g : String)
    (h : g ∉ keysOf ing) : contribSum ing q g = 0 := by
  induction ing with
  | nil => rfl
  | cons p rest ih =>
    simp only [keysOf, List.map_cons, List.mem_cons] at h
    push_neg at h
    rw [contribSum_cons, if_neg (fun hc => h.1 hc.symm), ih h.2]
    omega

theorem contribSum_of_mem (ing : List (String × Int)) (q : Int) (g : String) (per : Int)
    (hnd : (keysOf ing).Nodup) (h : (g, per) ∈ ing) : contribSum ing q g = per * q := by
  induction ing with
  | nil => cases h
  | cons p rest ih =>
    simp only [keysOf, List.map_cons, List.nodup_cons] at hnd
    rcases List.mem_cons.mp h with h1 | h1
    · have h1' : p = (g, per) := h1.symm
      subst h1'
      rw [contribSum_cons, if_pos rfl, contribSum_of_not_mem rest q g hnd.1]
      simp
    · have hne : p.1 ≠ g := by
        intro hc
        exact hnd.1 (hc ▸ List.mem_map.mpr ⟨(g, per), h1, rfl⟩)
      rw [contribSum_cons, if_neg hne, ih hnd.2 h1]
      omega

/-! ### Per-selected-item and whole-fold lemmas -/

theorem lookupD_stepSel (items : Catalog) (r : Req) (s : String × Int) (g : String) :
    lookupD (stepSel items r s) g = lookupD r g + lookupD (stepSel items [] s) g := by
  cases hl : List.lookup s.1 items with
  | none => simp [stepSel, hl, lookupD_nil]
  | some item =>
    cases hu : truthyMap item.upgradeCost with
    | true =>
      cases hp : get_previous_upgrade_level s.1 with
      | some p =>
        simp only [stepSel, hl, hu, hp, if_true]
        rw [lookupD_addReq, lookupD_addReq, lookupD_addAll, lookupD_addAll, lookupD_nil]
        omega
      | none =>
        simp only [stepSel, hl, hu, hp, if_true]
        rw [lookupD_addAll, lookupD_addAll, lookupD_nil]
        omega
    | false =>
      cases hr : truthyMap item.recipe with
      | true =>
        simp only [stepSel, hl, hu, hr, if_true, Bool.false_eq_true, if_false]
        rw [lookupD_addAll, lookupD_addAll, lookupD_nil]
        omega
      | false =>
        simp only [stepSel, hl, hu, hr, Bool.false_eq_true, if_false]
        rw [lookupD_nil]
        omega

theorem lookupD_foldl_stepSel (items : Catalog) (l : List (String × Int)) (g : String) :
    ∀ r : Req, lookupD (l.foldl (stepSel items) r) g =
      lookupD r g + lookupD (l.foldl (stepSel items) []) g := by
  induction l with
  | nil => intro r; rw [List.foldl_nil, List.foldl_nil, lookupD_nil]; omega
  | cons s l ih =>
    intro r
    rw [List.foldl_cons, List.foldl_cons, ih (stepSel items r s), ih (stepSel items [] s),
      lookupD_stepSel]
    omega

theorem keysOf_stepSel_nodup (items : Catalog) (r : Req) (s : String × Int)
    (h : (keysOf r).Nodup) : (keysOf (stepSel items r s)).Nodup := by
  cases hl : List.lookup s.1 items with
  | none => simpa [stepSel, hl] using h
  | some item =>
    cases hu : truthyMap item.upgradeCost with
    | true =>
      cases hp : get_previous_upgrade_level s.1 with
      | some p =>
        simp only [stepSel, hl, hu, hp, if_true]
        exact keysOf_addReq_nodup _ _ _ (keysOf_addAll_nodup _ _ _ h)
      | none =>
        simp only [stepSel, hl, hu, hp, if_true]
        exact keysOf_addAll_nodup _ _ _ h
    | false =>
      cases hr : truthyMap item.recipe with
      | true =>
        simp only [stepSel, hl, hu, hr, if_true, Bool.false_eq_true, if_false]
        exact keysOf_addAll_nodup _ _ _ h
      | false =>
        simpa [stepSel, hl, hu, hr] using h

theorem keysOf_foldl_stepSel_nodup (items : Catalog) (l : List (String × Int)) :
    ∀ r : Req, (keysOf r).Nodup → (keysOf (l.foldl (stepSel items) r)).Nodup := by
  induction l with
  | nil => intro r h; exact h
  | cons s l ih =>
    intro r h
    exact ih _ (keysOf_stepSel_nodup items r s h)

theorem gdr_keys_nodup (items : Catalog) (sel : List (String × Int)) :
    (keysOf (get_direct_requirements items sel)).Nodup :=
  keysOf_foldl_stepSel_nodup items sel [] (by simp [keysOf])

theorem truthyMap_some_of_ne_nil (m : List (String × Int)) (h : m ≠ []) :
    truthyMap (some m) = true := by
  cases m with
  | nil => exact absurd rfl h
  | cons a l => rfl

/-- Expanding a single selected item whose `upgradeCost` is truthy:
the result is the upgrade-cost accumulation plus, when a previous tier
exists, one previous-tier unit per unit upgraded. -/
theorem gdr_single_upgrade (items : Catalog) (item_id : String) (qty : Int)
    (item : Item) (uc : List (String × Int))
    (hlook : List.lookup item_id items = some item)
    (huc : item.upgradeCost = some uc) (hne : uc ≠ []) :
    get_direct_requirements items [(item_id, qty)] =
      match get_previous_upgrade_level item_id with
      | some p => addReq (addAll [] uc qty) p qty
      | none => addAll [] uc qty := by
  have htr : truthyMap item.upgradeCost = true := by
    rw [huc]; exact truthyMap_some_of_ne_nil uc hne
  show stepSel items [] (item_id, qty) = _
  simp only [stepSel, hlook, htr, if_true, huc, Option.getD_some,
    truthyMap_some_of_ne_nil uc hne]

/-- Expanding a single selected item with no truthy `upgradeCost` and a
truthy `recipe`: the result is the recipe accumulation. -/
theorem gdr_single_recipe (items : Catalog) (item_id : String) (qty : Int)
    (item : Item) (rec : List (String × Int))
    (hlook : List.lookup item_id items = some item)
    (hnuc : truthyMap item.upgradeCost = false)
    (hrec : item.recipe = some rec) (hne : rec ≠ []) :
    get_direct_requirements items [(item_id, qty)] = addAll [] rec qty := by
  have htr : truthyMap item.recipe = true := by
    rw [hrec]; exact truthyMap_some_of_ne_nil rec hne
  show stepSel items [] (item_id, qty) = _
  simp only [stepSel, hlook, hnuc, Bool.false_eq_true, if_false, htr, if_true, hrec,
    Option.getD_some, truthyMap_some_of_ne_nil rec hne]

theorem lookup_addAll_nil_of_mem (ing : List (String × Int)) (q : Int) (g : String)
    (per : Int) (hnd : (keysOf ing).Nodup) (hmem : (g, per) ∈ ing) :
    List.lookup g (addAll [] ing q) = some (per * q) := by
  have hm : g ∈ keysOf (addAll [] ing q) :=
    (mem_keysOf_addAll ing q g []).mpr (Or.inr (List.mem_map.mpr ⟨(g, per), hmem, rfl⟩))
  rw [lookup_of_mem_keys _ _ hm, lookupD_addAll, lookupD_nil,
    contribSum_of_mem ing q g per hnd hmem, zero_add]

theorem lookup_addReq_addAll_of_mem (ing : List (String × Int)) (q : Int) (g p : String)
    (per : Int) (hnd : (keysOf ing).Nodup) (hmem : (g, per) ∈ ing) (hpg : p ≠ g) :
    List.lookup g (addReq (addAll [] ing q) p q) = some (per * q) := by
  have hm : g ∈ keysOf (addReq (addAll [] ing q) p q) :=
    (mem_keysOf_addReq (addAll [] ing q) p q g).mpr
      (Or.inl ((mem_keysOf_addAll ing q g []).mpr
        (Or.inr (List.mem_map.mpr ⟨(g, per), hmem, rfl⟩))))
  rw [lookup_of_mem_keys _ _ hm, lookupD_addReq, if_neg hpg, lookupD_addAll, lookupD_nil,
    contribSum_of_mem ing q g per hnd hmem]
  norm_num

theorem lookup_addReq_addAll_prev (ing : List (String × Int)) (q : Int) (p : String)
    (hnp : p ∉ keysOf ing) :
    List.lookup p (addReq (addAll [] ing q) p q) = some q := by
  have hm : p ∈ keysOf (addReq (addAll [] ing q) p q) :=
    (mem_keysOf_addReq (addAll [] ing q) p q p).mpr (Or.inr rfl)
  rw [lookup_of_mem_keys _ _ hm, lookupD_addReq, if_pos rfl, lookupD_addAll, lookupD_nil,
    contribSum_of_not_mem ing q p hnp]
  norm_num

theorem mem_keys_addAll_nil (ing : List (String × Int)) (q : Int) (g : String)
    (h : g ∈ keysOf (addAll [] ing q)) : g ∈ keysOf ing := by
  rcases (mem_keysOf_addAll ing q g []).mp h with h1 | h1
  · cases h1
  · exact h1

theorem mem_keys_addReq_addAll (ing : List (String × Int)) (q : Int) (p g : String)
    (h : g ∈ keysOf (addReq (addAll [] ing q) p q)) : g ∈ keysOf ing ∨ g = p := by
  rcases (mem_keysOf_addReq (addAll [] ing q) p q g).mp h with h1 | h1
  · exact Or.inl (mem_keys_addAll_nil ing q g h1)
  · exact Or.inr h1

/-! ### Claim theorems -/

/-- C1: when a selected item's `upgradeCost` is present and non-empty,
`get_direct_requirements` accumulates `perUnitQty * qty` under each
upgrade-cost ingredient, additionally accumulates `qty` under the
previous-tier identifier when one exists, and produces no entry outside
those (so the item's `recipe` contributes nothing even when populated);
in particular `expand({weapon_iii: 2})` on a catalog where `weapon_iii`
has `upgradeCost {mat_a: 3, mat_b: 1}` (and a populated recipe) yields
exactly `{mat_a: 6, mat_b: 2, weapon_ii: 2}`. -/
theorem C1_upgrade_cost_precedence
    (items : Catalog) (item_id : String) (qty : Int) (item : Item)
    (uc : List (String × Int))
    (hlook : List.lookup item_id items = some item)
    (huc : item.upgradeCost = some uc)
    (hne : uc ≠ [])
    (hnd : (keysOf uc).Nodup) :
    (∀ g per, (g, per) ∈ uc → get_previous_upgrade_level item_id ≠ some g →
        List.lookup g (get_direct_requirements items [(item_id, qty)]) = some (per * qty))
    ∧ (∀ p, get_previous_upgrade_level item_id = some p → p ∉ keysOf uc →
        List.lookup p (get_direct_requirements items [(item_id, qty)]) = some qty)
    ∧ (∀ g, g ∈ keysOf (get_direct_requirements items [(item_id, qty)]) →
        g ∈ keysOf uc ∨ get_previous_upgrade_level item_id = some g)
    ∧ get_direct_requirements weaponCat [("weapon_iii", 2)] =
        [("mat_a", 6), ("mat_b", 2), ("weapon_ii", 2)] := by
  have hform := gdr_single_upgrade items item_id qty item uc hlook huc hne
  refine ⟨?_, ?_, ?_, by decide⟩
  · intro g per hmem hpne
    rw [hform]
    cases hp : get_previous_upgrade_level item_id with
    | none => exact lookup_addAll_nil_of_mem uc qty g per hnd hmem
    | some p =>
      exact lookup_addReq_addAll_of_mem uc qty g p per hnd hmem
        (fun hc => hpne (by rw [hp, hc]))
  · intro p hp hnp
    rw [hform, hp]
    exact lookup_addReq_addAll_prev uc qty p hnp
  · intro g hg
    rw [hform] at hg
    cases hp : get_previous_upgrade_level item_id with
    | none =>
      rw [hp] at hg
      exact Or.inl (mem_keys_addAll_nil uc qty g hg)
    | some p =>
      rw [hp] at hg
      rcases mem_keys_addReq_addAll uc qty p g hg with h1 | h1
      · exact Or.inl h1
      · exact Or.inr (by rw [h1])

/-- C1 witness: the general part applied to the concrete
`weaponCat` catalog at ingredient `mat_a` and at the previous tier. -/
theorem C1_upgrade_cost_precedence_witness :
    List.lookup "mat_a" (get_direct_requirements weaponCat [("weapon_iii", 2)]) = some 6
    ∧ List.lookup "weapon_ii" (get_direct_requirements weaponCat [("weapon_iii", 2)]) =
        some 2 := by
  have h := C1_upgrade_cost_precedence weaponCat "weapon_iii" 2 weaponIIIItem
    [("mat_a", 3), ("mat_b", 1)] (by decide) (by decide) (by decide) (by decide)
  exact ⟨h.1 "mat_a" 3 (by decide) (by decide),
    h.2.1 "weapon_ii" (by decide) (by decide)⟩

/-- C2: a selected item with a non-empty `recipe` and no truthy
`upgradeCost` expands to exactly its recipe entries scaled by the
selected quantity, one level deep; the spec's wood/plank/table scenario
expands `table` to `{plank: 4}` only, and `{plank: 4}` to `{wood: 8}`. -/
theorem C2_recipe_one_level
    (items : Catalog) (item_id : String) (n : Int) (item : Item)
    (rec : List (String × Int))
    (hlook : List.lookup item_id items = some item)
    (hnuc : truthyMap item.upgradeCost = false)
    (hrec : item.recipe = some rec)
    (hne : rec ≠ [])
    (hnd : (keysOf rec).Nodup)
    (_hpos : 0 < n) :
    (∀ g per, (g, per) ∈ rec →
        List.lookup g (get_direct_requirements items [(item_id, n)]) = some (per * n))
    ∧ (∀ g, g ∈ keysOf (get_direct_requirements items [(item_id, n)]) → g ∈ keysOf rec)
    ∧ get_direct_requirements woodCat [("table", 1)] = [("plank", 4)]
    ∧ get_direct_requirements woodCat [("plank", 4)] = [("wood", 8)] := by
  have hform := gdr_single_recipe items item_id n item rec hlook hnuc hrec hne
  refine ⟨?_, ?_, by decide, by decide⟩
  · intro g per hmem
    rw [hform]
    exact lookup_addAll_nil_of_mem rec n g per hnd hmem
  · intro g hg
    rw [hform] at hg
    exact mem_keys_addAll_nil rec n g hg

/-- C2 witness: the general part applied to the `woodCat` catalog,
expanding one `table` into 4 `plank`. -/
theorem C2_recipe_one_level_witness :
    List.lookup "plank" (get_direct_requirements woodCat [("table", 1)]) = some 4
    ∧ ∀ g, g ∈ keysOf (get_direct_requirements woodCat [("table", 1)]) → g = "plank" := by
  have h := C2_recipe_one_level woodCat "table" 1
    { emptyItem with recipe := some [("plank", 4)] } [("plank", 4)]
    (by decide) (by decide) (by decide) (by decide) (by decide) (by decide)
  refine ⟨h.1 "plank" 4 (by decide), fun g hg => ?_⟩
  have := h.2.1 g hg
  simpa [keysOf] using this

/-- C3: accumulation in `get_direct_requirements` is additive across
the entries of the input mapping — the output value at any ingredient
over a concatenated selection is the sum of the values over its two
parts — and the output never carries two entries for one key; in the
spec's example, `a` and `b` each requiring 2 `wood` yield `wood: 4`. -/
theorem C3_additive_accumulation :
    (∀ (items : Catalog) (xs ys : List (String × Int)) (g : String),
        lookupD (get_direct_requirements items (xs ++ ys)) g =
          lookupD (get_direct_requirements items xs) g +
            lookupD (get_direct_requirements items ys) g)
    ∧ (∀ (items : Catalog) (sel : List (String × Int)),
        (keysOf (get_direct_requirements items sel)).Nodup)
    ∧ List.lookup "wood" (get_direct_requirements abCat [("a", 1), ("b", 1)]) = some 4 := by
  refine ⟨fun items xs ys g => ?_, gdr_keys_nodup, by decide⟩
  rw [get_direct_requirements, get_direct_requirements, get_direct_requirements,
    List.foldl_append, lookupD_foldl_stepSel]

/-- C4: an item identifier absent from the catalog is classified as a
base resource and contributes nothing to `get_direct_requirements` —
dropping it from any selection leaves the result unchanged. -/
theorem C4_unknown_identifier_degrades
    (items : Catalog) (item_id : String)
    (h : List.lookup item_id items = none) :
    is_base_resource items item_id = true
    ∧ ∀ (n : Int) (pre post : List (String × Int)),
        get_direct_requirements items (pre ++ (item_id, n) :: post) =
          get_direct_requirements items (pre ++ post) := by
  constructor
  · rw [is_base_resource, h]
  · intro n pre post
    rw [get_direct_requirements, get_direct_requirements, List.foldl_append,
      List.foldl_append, List.foldl_cons]
    have hskip : stepSel items (pre.foldl (stepSel items) []) (item_id, n) =
        pre.foldl (stepSel items) [] := by
      rw [stepSel]
      simp only [h]
    rw [hskip]

/-- C4 witness: the unknown identifier `mystery` in `woodCat` is a base
resource and contributes no entries. -/
theorem C4_unknown_identifier_degrades_witness :
    is_base_resource woodCat "mystery" = true
    ∧ get_direct_requirements woodCat [("table", 1), ("mystery", 5)] =
        get_direct_requirements woodCat [("table", 1)] := by
  have h := C4_unknown_identifier_degrades woodCat "mystery" (by decide)
  exact ⟨h.1, h.2 5 [("table", 1)] []⟩

/-- C10: quantity 0 is neither rejected nor filtered: expanding an item
at quantity 0 produces an output entry equal to 0 for each recipe (or
upgrade-cost, and previous-tier) ingredient, reachable through the
public interface. -/
theorem C10_zero_quantity_entries
    (items : Catalog) (item_id : String) (item : Item)
    (hlook : List.lookup item_id items = some item) :
    (∀ rec, truthyMap item.upgradeCost = false → item.recipe = some rec → rec ≠ [] →
        (keysOf rec).Nodup →
        ∀ g per, (g, per) ∈ rec →
          List.lookup g (get_direct_requirements items [(item_id, 0)]) = some 0)
    ∧ (∀ uc, item.upgradeCost = some uc → uc ≠ [] → (keysOf uc).Nodup →
        (∀ g per, (g, per) ∈ uc → get_previous_upgrade_level item_id ≠ some g →
            List.lookup g (get_direct_requirements items [(item_id, 0)]) = some 0)
        ∧ ∀ p, get_previous_upgrade_level item_id = some p → p ∉ keysOf uc →
            List.lookup p (get_direct_requirements items [(item_id, 0)]) = some 0)
    ∧ get_direct_requirements woodCat [("table", 0)] = [("plank", 0)]
    ∧ get_direct_requirements weaponCat [("weapon_iii", 0)] =
        [("mat_a", 0), ("mat_b", 0), ("weapon_ii", 0)] := by
  refine ⟨?_, ?_, by decide, by decide⟩
  · intro rec hnuc hrec hne hnd g per hmem
    rw [gdr_single_recipe items item_id 0 item rec hlook hnuc hrec hne]
    have := lookup_addAll_nil_of_mem rec 0 g per hnd hmem
    rwa [mul_zero] at this
  · intro uc huc hne hnd
    have hform := gdr_single_upgrade items item_id 0 item uc hlook huc hne
    constructor
    · intro g per hmem hpne
      rw [hform]
      cases hp : get_previous_upgrade_level item_id with
      | none =>
        have := lookup_addAll_nil_of_mem uc 0 g per hnd hmem
        rwa [mul_zero] at this
      | some p =>
        have := lookup_addReq_addAll_of_mem uc 0 g p per hnd hmem
          (fun hc => hpne (by rw [hp, hc]))
        rwa [mul_zero] at this
    · intro p hp hnp
      rw [hform, hp]
      exact lookup_addReq_addAll_prev uc 0 p hnp

/-- C10 witness: the concrete zero-quantity expansions, through the
general statement at `table` in `woodCat` and `weapon_iii` in
`weaponCat`. -/
theorem C10_zero_quantity_entries_witness :
    List.lookup "plank" (get_direct_requirements woodCat [("table", 0)]) = some 0
    ∧ List.lookup "weapon_ii" (get_direct_requirements weaponCat [("weapon_iii", 0)]) =
        some 0 := by
  have h1 := C10_zero_quantity_entries woodCat "table"
    { emptyItem with recipe := some [("plank", 4)] } (by decide)
  have h2 := C10_zero_quantity_entries weaponCat "weapon_iii" weaponIIIItem (by decide)
  exact ⟨h1.1 [("plank", 4)] (by decide) (by decide) (by decide) (by decide) "plank" 4
      (by decide),
    (h2.2.1 [("mat_a", 3), ("mat_b", 1)] (by decide) (by decide) (by decide)).2
      "weapon_ii" (by decide) (by decide)⟩

/-! ### Display-info projections -/

theorem strLength_ne_zero (f : String) (h : f ≠ "") : f.length ≠ 0 := by
  intro hc
  exact h (String.ext (List.length_eq_zero.mp hc))

/-- The upgrade-overlay branch of `get_item_info` never changes the
resolved image path, so the `image` field is the filename/tier/identifier
priority chain alone. -/
theorem get_item_info_image (items : Catalog) (item_id : String) :
    (get_item_info items item_id).image =
      (let item := (List.lookup item_id items).getD emptyItem
       let weapon_info :=
         get_weapon_upgrade_info item_id (item.type.getD "Unknown" ≠ "Modification")
       if (item.imageFilename.getD "").length ≠ 0 then
         "static/images/" ++ item.imageFilename.getD ""
       else if weapon_info.is_weapon_upgrade then
         "static/images/" ++ weapon_info.base_name.getD "" ++ ".png"
       else "static/images/" ++ item_id ++ ".png") := by
  rw [get_item_info]
  simp only [apply_ite ItemInfo.image, ite_self]

/-- The upgrade-overlay branch of `get_item_info` never changes the
resolved display name. -/
theorem get_item_info_name (items : Catalog) (item_id : String) :
    (get_item_info items item_id).name =
      (let item := (List.lookup item_id items).getD emptyItem
       match item.name with
       | none => item_id
       | some (NameData.str s) => s
       | some (NameData.dict m) => (List.lookup "en" m).getD item_id) := by
  rw [get_item_info]
  simp only [apply_ite ItemInfo.name, ite_self]

/-- C5: the claim says `tierInfo("rifle_iii", True)` yields required
previous-tier numeral "II".  The code stores the item's OWN numeral in
`previous_level`: it evaluates to `some "III"`, not `some "II"` (the
`False`-eligibility case does return "not a tier" as claimed). -/
theorem C5_tier_info_previous_level :
    get_weapon_upgrade_info "rifle_iii" true =
      { is_weapon_upgrade := true, base_name := some "rifle",
        upgrade_level := some "III", previous_level := some "III" }
    ∧ (get_weapon_upgrade_info "rifle_iii" true).previous_level ≠ some "II"
    ∧ get_weapon_upgrade_info "rifle_iii" false =
      { is_weapon_upgrade := false, base_name := none,
        upgrade_level := none, previous_level := none } := by
  decide

/-- C6: `get_previous_upgrade_level` maps a final `_ii`/`_iii`/`_iv`
suffix to `_i`/`_ii`/`_iii` respectively and returns nothing when the
identifier ends in none of those; in particular
`rifle_iv ↦ rifle_iii`, `rifle_i ↦ none`, `rifle ↦ none`. -/
theorem C6_previous_tier_suffix :
    (∀ b : String,
        get_previous_upgrade_level (b ++ "_ii") = some (b ++ "_i")
        ∧ get_previous_upgrade_level (b ++ "_iii") = some (b ++ "_ii")
        ∧ get_previous_upgrade_level (b ++ "_iv") = some (b ++ "_iii"))
    ∧ (∀ s : String, endsWithS s "_ii" = false → endsWithS s "_iii" = false →
        endsWithS s "_iv" = false → get_previous_upgrade_level s = none)
    ∧ get_previous_upgrade_level "rifle_iv" = some "rifle_iii"
    ∧ get_previous_upgrade_level "rifle_i" = none
    ∧ get_previous_upgrade_level "rifle" = none := by
  refine ⟨fun b => ⟨gpul_append_ii b, gpul_append_iii b, gpul_append_iv b⟩,
    fun s h2 h3 h4 => ?_, by decide, by decide, by decide⟩
  simp only [get_previous_upgrade_level, h2, h3, h4, Bool.false_eq_true, if_false]

/-- C6 witness: the suffix-replacement part at base `rifle`, and the
no-suffix part at `renegade`. -/
theorem C6_previous_tier_suffix_witness :
    get_previous_upgrade_level ("rifle" ++ "_iv") = some ("rifle" ++ "_iii")
    ∧ get_previous_upgrade_level "renegade" = none := by
  exact ⟨(C6_previous_tier_suffix.1 "rifle").2.2,
    C6_previous_tier_suffix.2.1 "renegade" (by decide) (by decide) (by decide)⟩

/-- C7: the image path resolved by `get_item_info` follows the priority
order (a) the item's own non-empty `imageFilename`, else (b) the base
identifier's convention when the identifier parses as a weapon-upgrade
tier, else (c) the item's own identifier's convention; in particular an
item with empty `imageFilename` and identifier `rifle_ii` resolves to
`static/images/rifle.png`, not `static/images/rifle_ii.png`. -/
theorem C7_image_path_priority
    (items : Catalog) (item_id : String) (item : Item) (winfo : WeaponUpgradeInfo)
    (hitem : (List.lookup item_id items).getD emptyItem = item)
    (hw : get_weapon_upgrade_info item_id (item.type.getD "Unknown" ≠ "Modification") =
      winfo) :
    (∀ f, item.imageFilename = some f → f ≠ "" →
        (get_item_info items item_id).image = "static/images/" ++ f)
    ∧ (∀ b, item.imageFilename.getD "" = "" → winfo.is_weapon_upgrade = true →
        winfo.base_name = some b →
        (get_item_info items item_id).image = "static/images/" ++ b ++ ".png")
    ∧ (item.imageFilename.getD "" = "" → winfo.is_weapon_upgrade = false →
        (get_item_info items item_id).image = "static/images/" ++ item_id ++ ".png")
    ∧ (get_item_info [("rifle_ii", rifleIIItem)] "rifle_ii").image =
        "static/images/rifle.png" := by
  refine ⟨?_, ?_, ?_, by decide⟩
  · intro f hf hne
    rw [get_item_info_image]
    simp only [hitem, hf, Option.getD_some]
    rw [if_pos (strLength_ne_zero f hne)]
  · intro b hfe hwu hb
    rw [get_item_info_image]
    simp only [hitem, hw, hfe, hwu, hb, Option.getD_some]
    rw [if_neg (by decide), if_pos trivial]
  · intro hfe hwu
    rw [get_item_info_image]
    simp only [hitem, hw, hfe, hwu]
    rw [if_neg (by decide)]
    simp only [Bool.false_eq_true, if_false]

/-- C7 witness: the tier-fallback case at the concrete `rifle_ii`
record whose `imageFilename` is present but empty. -/
theorem C7_image_path_priority_witness :
    (get_item_info [("rifle_ii", rifleIIItem)] "rifle_ii").image =
      "static/images/" ++ "rifle" ++ ".png" := by
  exact (C7_image_path_priority [("rifle_ii", rifleIIItem)] "rifle_ii" rifleIIItem
    ⟨true, some "rifle", some "II", some "II"⟩ (by decide) (by decide)).2.1
    "rifle" (by decide) (by decide) (by decide)

/-- C8: the display name resolved by `get_item_info` is the `en` entry
when the stored name is a language dict (the identifier when `en` is
absent), the string itself when stored as a plain string, and the item
identifier when the name field is absent — in particular for unknown
items. -/
theorem C8_display_name_resolution
    (items : Catalog) (item_id : String) (item : Item)
    (hitem : (List.lookup item_id items).getD emptyItem = item) :
    (∀ m s, item.name = some (NameData.dict m) → List.lookup "en" m = some s →
        (get_item_info items item_id).name = s)
    ∧ (∀ m, item.name = some (NameData.dict m) → List.lookup "en" m = none →
        (get_item_info items item_id).name = item_id)
    ∧ (∀ s, item.name = some (NameData.str s) → (get_item_info items item_id).name = s)
    ∧ (item.name = none → (get_item_info items item_id).name = item_id)
    ∧ (get_item_info [("x", namedDictItem)] "x").name = "Rifle"
    ∧ (get_item_info [("x", namedStrItem)] "x").name = "Rifle"
    ∧ (get_item_info [("x", emptyItem)] "x").name = "x"
    ∧ (get_item_info [] "zz").name = "zz" := by
  refine ⟨?_, ?_, ?_, ?_, by decide, by decide, by decide, by decide⟩
  · intro m s hm hs
    rw [get_item_info_name]
    simp only [hitem, hm, hs, Option.getD_some]
  · intro m hm hs
    rw [get_item_info_name]
    simp only [hitem, hm, hs, Option.getD_none]
  · intro s hs
    rw [get_item_info_name]
    simp only [hitem, hs]
  · intro hn
    rw [get_item_info_name]
    simp only [hitem, hn]

/-- C8 witness: the dict-with-`en` case at the concrete record whose
name is `{"en": "Rifle", "fr": "Fusil"}`. -/
theorem C8_display_name_resolution_witness :
    (get_item_info [("x", namedDictItem)] "x").name = "Rifle" := by
  exact (C8_display_name_resolution [("x", namedDictItem)] "x" namedDictItem
    (by decide)).1 [("en", "Rifle"), ("fr", "Fusil")] "Rifle" (by decide) (by decide)

/-- C9: the `/api/expand` handler answers a missing item identifier
with a 400 client error, while a supplied-but-unknown identifier is not
an error: it answers 200 with an empty array — the two cases are
distinguishable at the boundary. -/
theorem C9_missing_vs_unknown (items : Catalog) :
    (∀ q, expand_item items none q = ApiResponse.clientError 400 "item_id required")
    ∧ ∀ s q, s ≠ "" → List.lookup s items = none →
        expand_item items (some s) q = ApiResponse.ok [] := by
  constructor
  · intro q
    rfl
  · intro s q hs hlook
    rw [expand_item]
    simp only [Option.getD_some]
    rw [if_neg hs]
    have hreq : get_direct_requirements items [(s, q.getD 1)] = [] := by
      show stepSel items [] (s, q.getD 1) = []
      rw [stepSel]
      simp only [hlook]
    rw [hreq]
    rfl

/-- C9 witness: missing identifier versus the unknown identifier
`mystery` against `woodCat`. -/
theorem C9_missing_vs_unknown_witness :
    expand_item woodCat none (some 1) = ApiResponse.clientError 400 "item_id required"
    ∧ expand_item woodCat (some "mystery") (some 3) = ApiResponse.ok [] := by
  exact ⟨(C9_missing_vs_unknown woodCat).1 (some 1),
    (C9_missing_vs_unknown woodCat).2 "mystery" (some 3) (by decide) (by decide)⟩

end ArcRaiders
